import Mathlib

/-!
Verification of the pytreqt requirement-extraction, validation and
coverage-aggregation engine against its specification.

The Python sources are shallowly embedded:

* Python `dict`s become insertion-ordered association lists
  (`List (String × α)`) with in-place update semantics;
* Python `set`s become duplicate-free lists in insertion order (`setAdd`,
  `setUpdate`, `setDiff` mirror `add`, `update` and set difference; CPython's
  set iteration order is unspecified, the embedding fixes insertion order —
  no proved property depends on the order);
* Python string methods (`upper`, `strip`, `split`, `in`, slicing) are
  re-implemented structurally over `String.data` so that concrete runs reduce
  inside the kernel;
* regular-expression searching (`re.findall`) is an explicit functional
  parameter (it lives in the external `re` collaborator);
* exceptions become `Option` error values threaded through the state.

File layout: all definitions first, then all theorems.
-/

set_option autoImplicit false

namespace Pytreqt

/-! ## Definitions -/

/-! ### Python string operations, structurally over `List Char` -/

/-- Python `str.upper()` (ASCII identifiers in this code base). -/
def pyUpper (s : String) : String := String.mk (s.data.map Char.toUpper)

/-- Python `str.strip()`: drop leading and trailing whitespace. -/
def pyStrip (s : String) : String :=
  String.mk (((s.data.dropWhile Char.isWhitespace).reverse.dropWhile
    Char.isWhitespace).reverse)

/-- Python `str.rstrip(chars)` for a single character class. -/
def pyDropRightWhile (s : String) (p : Char → Bool) : String :=
  String.mk ((s.data.reverse.dropWhile p).reverse)

/-- Python `str.startswith(pre)`. -/
def pyStartsWith (s pre : String) : Bool := pre.data.isPrefixOf s.data

/-- Python slicing `s[n:]` (by code points). -/
def pyDropChars (s : String) (n : Nat) : String := String.mk (s.data.drop n)

/-- Splitting a character list on a non-empty separator, fuelled so that the
recursion is structural (fuel `≥ length + 1` always suffices). -/
def splitOnFuel (sep : List Char) : Nat → List Char → List (List Char)
  | 0, _ => [[]]
  | _ + 1, [] => [[]]
  | fuel + 1, c :: cs =>
      if sep.isPrefixOf (c :: cs) then
        [] :: splitOnFuel sep fuel ((c :: cs).drop sep.length)
      else
        match splitOnFuel sep fuel cs with
        | [] => [[c]]
        | g :: gs => (c :: g) :: gs

/-- Python `s.split(sub)` for a non-empty literal separator (the code never
splits on an empty separator, which Python rejects). -/
def pySplitOn (s sub : String) : List String :=
  (splitOnFuel sub.data (s.data.length + 1) s.data).map String.mk

/-- Python substring test `sub in s` (for a non-empty `sub`). -/
def strContains (s sub : String) : Bool := (pySplitOn s sub).length ≥ 2

/-- Splitting a character list at every character satisfying `p`. -/
def splitOnPred (p : Char → Bool) : List Char → List (List Char)
  | [] => [[]]
  | c :: cs =>
      if p c then [] :: splitOnPred p cs
      else
        match splitOnPred p cs with
        | [] => [[c]]
        | g :: gs => (c :: g) :: gs

/-- Python `str.split()` with no argument: split on whitespace runs, dropping
empty tokens. -/
def pySplitWs (s : String) : List String :=
  ((splitOnPred Char.isWhitespace s.data).map String.mk).filter (fun t => t ≠ "")

/-! ### Python dicts as insertion-ordered association lists -/

/-- Lookup in an insertion-ordered association list (Python `d[k]` / `d.get(k)`). -/
def dictGet {α : Type} (k : String) : List (String × α) → Option α
  | [] => none
  | p :: ps => if p.1 = k then some p.2 else dictGet k ps

/-- Assignment `d[k] = v` on an insertion-ordered association list: replaces the
value in place when the key is present, otherwise appends the new binding. -/
def dictSet {α : Type} (k : String) (v : α) : List (String × α) → List (String × α)
  | [] => [(k, v)]
  | p :: ps => if p.1 = k then (k, v) :: ps else p :: dictSet k v ps

/-- `defaultdict(list)` append: `d[k].append(t)`, creating `[t]` when absent. -/
def dictAppend (k : String) (t : String) :
    List (String × List String) → List (String × List String)
  | [] => [(k, [t])]
  | p :: ps => if p.1 = k then (p.1, p.2 ++ [t]) :: ps else p :: dictAppend k t ps

/-- The keys of an association list, in insertion order. -/
def keys {α : Type} (l : List (String × α)) : List String := l.map Prod.fst

/-- Python `d.update(u)`: fold `d[k] = v` over the entries of `u`. -/
def dictUpdate {α : Type} (l upd : List (String × α)) : List (String × α) :=
  upd.foldl (fun m p => dictSet p.1 p.2 m) l

/-! ### Python sets as duplicate-free lists in insertion order -/

/-- Python `s.add(x)`. -/
def setAdd (s : List String) (x : String) : List String :=
  if x ∈ s then s else s ++ [x]

/-- Python `s.update(xs)`. -/
def setUpdate (s : List String) (xs : List String) : List String :=
  xs.foldl setAdd s

/-- Python set difference `s - t`. -/
def setDiff (s t : List String) : List String :=
  s.filter (fun x => decide (x ∉ t))

/-! ### requirements.py — `RequirementsParser`

`findall pattern text` models `re.findall(pattern, text, re.IGNORECASE)` over the
configured requirement patterns, and `findallDoc pattern content` models
`re.findall` of the wrapped markdown pattern
`(?:^|\s|-\s\*\*|\*\*)(pattern)` with `re.MULTILINE | re.IGNORECASE`.
Both are external collaborators (the `re` module) and enter as function
parameters.  The memoization field `_valid_requirements` is the parser state
(`none` = not yet loaded). -/

/-- How a read of the requirements file can go: the file is missing, it exists
but reading raises `OSError`/`UnicodeDecodeError`, or it has some content. -/
inductive FileRead where
  | missing : FileRead
  | unreadable : FileRead
  | content : String → FileRead
deriving DecidableEq

namespace RequirementsParser

/-- `RequirementsParser.extract_requirements` (requirements.py lines 16–33):
empty docstring short-circuits to the empty set; otherwise each configured
pattern's case-insensitive matches are upper-cased and unioned into one set. -/
def extract_requirements (findall : String → String → List String)
    (patterns : List String) (docstring : String) : List String :=
  if docstring = "" then []
  else patterns.foldl
    (fun acc pattern => setUpdate acc ((findall pattern docstring).map pyUpper)) []

/-- `RequirementsParser.load_valid_requirements` (requirements.py lines 35–68):
returns the memoized set when present; a missing or unreadable file memoizes
the empty set; otherwise the matches of every wrapped pattern are upper-cased,
unioned, memoized and returned.  The second component is the updated
`_valid_requirements` field. -/
def load_valid_requirements (findallDoc : String → String → List String)
    (patterns : List String) (file : FileRead) (st : Option (List String)) :
    List String × Option (List String) :=
  match st with
  | some v => (v, some v)
  | none =>
    match file with
    | .missing => ([], some [])
    | .unreadable => ([], some [])
    | .content c =>
        let found := patterns.foldl
          (fun acc pattern => setUpdate acc ((findallDoc pattern c).map pyUpper)) []
        (found, some found)

/-- The payload of the `ValueError` raised by `validate_requirements`: the
owning test's name and the offending identifiers (requirements.py lines 88–92). -/
structure ValidationError where
  test_name : String
  invalid : List String
deriving DecidableEq

/-- `RequirementsParser.validate_requirements` (requirements.py lines 70–92):
loads the valid set; an empty valid set disables validation; otherwise the
identifiers outside the valid set, when any, are raised as a `ValueError`
naming the test.  Returns the error (if raised) and the updated parser state. -/
def validate_requirements (findallDoc : String → String → List String)
    (patterns : List String) (file : FileRead) (requirements : List String)
    (test_name : String) (st : Option (List String)) :
    Option ValidationError × Option (List String) :=
  let res := load_valid_requirements findallDoc patterns file st
  if res.1 = [] then (none, res.2)
  else
    let invalid := setDiff requirements res.1
    if invalid = [] then (none, res.2)
    else (some ⟨test_name, invalid⟩, res.2)

/-- `RequirementsParser.clear_cache` (requirements.py lines 94–96). -/
def clear_cache (_st : Option (List String)) : Option (List String) := none

end RequirementsParser

/-! ### plugin.py — `RequirementsCollector` and the pytest hooks -/

/-- The part of a `pytest.Item` the collector consumes: `item.nodeid` and
`item.function.__doc__` (absent docstring modelled as `""`, which is what the
falsiness test `if item.function.__doc__:` checks). -/
structure Item where
  nodeid : String
  doc : String
deriving DecidableEq

/-- The state of the global `RequirementsCollector` (plugin.py lines 25–33),
together with the memoization field of its embedded `RequirementsParser`. -/
structure RequirementsCollector where
  test_requirements : List (String × List String)
  requirement_tests : List (String × List String)
  test_results : List (String × String)
  parser : Option (List String)
deriving DecidableEq

namespace RequirementsCollector

/-- The loop `for req in requirements: self.requirement_tests[req].append(test_name)`
(plugin.py lines 47–48). -/
def append_tests (m : List (String × List String)) (reqs : List String)
    (test_name : String) : List (String × List String) :=
  reqs.foldl (fun m req => dictAppend req test_name m) m

/-- `RequirementsCollector.collect_test_requirements` (plugin.py lines 35–48):
extracts requirements from the item's docstring, validates them (an exception
propagates before any collector mutation), then records the mapping and
appends the test under each referenced requirement.  The second component is
the propagated validation error, `none` when no exception was raised. -/
def collect_test_requirements (findall findallDoc : String → String → List String)
    (patterns : List String) (file : FileRead) (c : RequirementsCollector)
    (item : Item) : RequirementsCollector × Option RequirementsParser.ValidationError :=
  if item.doc = "" then (c, none)
  else
    let requirements := RequirementsParser.extract_requirements findall patterns item.doc
    if requirements = [] then (c, none)
    else
      let vres := RequirementsParser.validate_requirements findallDoc patterns file
        requirements item.nodeid c.parser
      match vres.1 with
      | some e => (⟨c.test_requirements, c.requirement_tests, c.test_results, vres.2⟩, some e)
      | none =>
          (⟨dictSet item.nodeid requirements c.test_requirements,
            append_tests c.requirement_tests requirements item.nodeid,
            c.test_results, vres.2⟩, none)

/-- The cross-entity invariant of §3 of the specification, restricted to the
collector's own state: every test identity appearing in a `requirement_tests`
value is a key of `test_requirements`, and every requirement referenced by a
`test_requirements` entry is a key of `requirement_tests`. -/
def coverage_invariant (c : RequirementsCollector) : Prop :=
  (∀ p ∈ c.requirement_tests, ∀ t ∈ p.2, t ∈ keys c.test_requirements) ∧
  (∀ p ∈ c.test_requirements, ∀ r ∈ p.2, r ∈ keys c.requirement_tests)

end RequirementsCollector

/-- `pytest_runtest_makereport` (plugin.py lines 101–111): a `call`-phase
outcome is recorded (overwriting any prior one); a `setup`-phase `skipped`
outcome is recorded as `skipped`; every other phase/outcome combination leaves
the collector untouched. -/
def pytest_runtest_makereport (c : RequirementsCollector)
    (nodeid phase outcome : String) : RequirementsCollector :=
  if phase = "call" then
    ⟨c.test_requirements, c.requirement_tests,
      dictSet nodeid outcome c.test_results, c.parser⟩
  else if phase = "setup" ∧ outcome = "skipped" then
    ⟨c.test_requirements, c.requirement_tests,
      dictSet nodeid "skipped" c.test_results, c.parser⟩
  else c

/-! ### plugin.py — aggregation of worker fragments (`pytest_terminal_summary`) -/

/-- The `_requirements_data` payload one worker report carries (plugin.py
lines 72–84), i.e. one self-contained fragment of coverage data. -/
structure Fragment where
  test_requirements : List (String × List String)
  requirement_tests : List (String × List String)
  test_results : List (String × String)
deriving DecidableEq

/-- A fragment is self-contained in the sense of §4.4 of the specification
(as produced by one worker's collector, plugin.py lines 72–84): every
requirement referenced by a `test_requirements` entry is a key of the
fragment's own `requirement_tests` whose list contains that test, and every
test listed in `requirement_tests` is a key of the fragment's own
`test_requirements`. -/
def Fragment.self_contained (f : Fragment) : Prop :=
  (∀ p ∈ f.test_requirements, ∀ r ∈ p.2,
     ∃ ts, dictGet r f.requirement_tests = some ts ∧ p.1 ∈ ts) ∧
  (∀ q ∈ f.requirement_tests, ∀ t ∈ q.2, t ∈ keys f.test_requirements)

/-- One dedup-append of the aggregation loop (plugin.py lines 142–145):
`if test not in aggregated_requirement_tests[req]: append(test)`, where the
`defaultdict` access creates the empty entry when absent. -/
def dedupAppend (m : List (String × List String)) (req test : String) :
    List (String × List String) :=
  match dictGet req m with
  | none => dictAppend req test m
  | some ts => if test ∈ ts then m else dictAppend req test m

/-- The inner loops of the aggregation (plugin.py lines 142–145) over one
fragment's `requirement_tests`. -/
def merge_requirement_tests (m : List (String × List String))
    (frag : List (String × List String)) : List (String × List String) :=
  frag.foldl (fun m p => p.2.foldl (fun m t => dedupAppend m p.1 t) m) m

/-- Folding one report's `_requirements_data` into the aggregated view
(plugin.py lines 136–145): `dict.update` for `test_requirements` and
`test_results`, dedup-append for `requirement_tests`. -/
def aggregate_step (acc : Fragment) (f : Fragment) : Fragment :=
  ⟨dictUpdate acc.test_requirements f.test_requirements,
   merge_requirement_tests acc.requirement_tests f.requirement_tests,
   dictUpdate acc.test_results f.test_results⟩

/-- The whole aggregation loop of `pytest_terminal_summary`
(plugin.py lines 127–146) over the sequence of fragments carried by the
reports, in reporting order. -/
def aggregate_requirements_data (frags : List Fragment) : Fragment :=
  frags.foldl aggregate_step ⟨[], [], []⟩

/-! ### tools/changes.py — `RequirementChangeDetector`

`hash` models `hashlib.sha256(...).hexdigest()` and `findallMd pattern content`
models `re.findall` of the markdown pattern `-\s+\*\*(pattern)\*\*:\s+(.+)`
with `re.MULTILINE | re.IGNORECASE`, returning `(req_id, description)` pairs;
both are external collaborators entering as parameters.  The requirements
document is `Option String` (`none` = missing file); the persisted cache is a
`HashCache` (`⟨none, [], _⟩` for a missing or corrupt cache file, as produced
by `load_cache`). -/

/-- The persisted requirement-hash snapshot `req_cache.json`
(tools/changes.py lines 211–215): `file_hash`, `requirement_hashes`,
`last_check`. -/
structure HashCache where
  file_hash : Option String
  requirement_hashes : List (String × String)
  last_check : String
deriving DecidableEq

/-- The `changes` dictionary built by `detect_changes` (tools/changes.py
lines 171–208).  The change classes and `affected_tests` are Python sets or
lists built from sets; they carry set semantics here (duplicate-free lists). -/
structure ChangeReport where
  file_changed : Bool
  added_requirements : List String
  modified_requirements : List String
  removed_requirements : List String
  affected_tests : List String
deriving DecidableEq

namespace RequirementChangeDetector

/-- `RequirementChangeDetector.get_requirements_hash` (tools/changes.py
lines 29–35): `None` for a missing file, otherwise the content hash. -/
def get_requirements_hash (hash : String → String) (doc : Option String) :
    Option String :=
  doc.map hash

/-- `RequirementChangeDetector.extract_requirements` (tools/changes.py
lines 37–55): a missing file yields the empty dict; otherwise each pattern's
markdown matches are folded in with `requirements[req_id.upper()] =
description.strip()`. -/
def extract_requirements (findallMd : String → String → List (String × String))
    (patterns : List String) (doc : Option String) : List (String × String) :=
  match doc with
  | none => []
  | some content =>
      patterns.foldl (fun reqs pattern =>
        (findallMd pattern content).foldl
          (fun reqs m => dictSet (pyUpper m.1) (pyStrip m.2) reqs) reqs) []

/-- `RequirementChangeDetector.get_requirement_hashes` (tools/changes.py
lines 57–63): hash of `f"{req_id}:{description}"` per requirement. -/
def get_requirement_hashes (hash : String → String)
    (requirements : List (String × String)) : List (String × String) :=
  requirements.map (fun p => (p.1, hash (p.1 ++ ":" ++ p.2)))

/-- The snapshot `detect_changes` persists in its changed branch
(tools/changes.py lines 211–216), for the current document state. -/
def current_snapshot (hash : String → String)
    (findallMd : String → String → List (String × String)) (patterns : List String)
    (doc : Option String) (now : String) : HashCache :=
  ⟨get_requirements_hash hash doc,
   get_requirement_hashes hash (extract_requirements findallMd patterns doc),
   now⟩

/-- `RequirementChangeDetector.detect_changes` (tools/changes.py
lines 158–218).  `cache` is the previously persisted snapshot as returned by
`load_cache`, `req_to_tests` the coverage mapping returned by
`get_test_coverage_mapping`, `now` the timestamp written into the new cache.
Returns the change report and the cache state as persisted when the call
ends (the unchanged branch returns before `save_cache`, so there the prior
cache is what remains on disk). -/
def detect_changes (hash : String → String)
    (findallMd : String → String → List (String × String)) (patterns : List String)
    (doc : Option String) (cache : HashCache)
    (req_to_tests : List (String × List String)) (now : String) :
    ChangeReport × HashCache :=
  let current_requirements := extract_requirements findallMd patterns doc
  let current_req_hashes := get_requirement_hashes hash current_requirements
  let current_file_hash := get_requirements_hash hash doc
  let previous_req_hashes := cache.requirement_hashes
  if current_file_hash = cache.file_hash then
    (⟨false, [], [], [], []⟩, cache)
  else
    let current_req_ids := keys current_req_hashes
    let previous_req_ids := keys previous_req_hashes
    let added := setDiff current_req_ids previous_req_ids
    let removed := setDiff previous_req_ids current_req_ids
    let modified := current_req_ids.filter (fun id =>
      decide (id ∈ previous_req_ids) &&
      decide (dictGet id current_req_hashes ≠ dictGet id previous_req_hashes))
    let affected := (added ++ modified ++ removed).foldl
      (fun acc id => setUpdate acc ((dictGet id req_to_tests).getD [])) []
    (⟨true, added, modified, removed, affected⟩,
     ⟨current_file_hash, current_req_hashes, now⟩)

/-- First pass of `get_test_coverage_mapping` (tools/changes.py lines 112–121):
collect `test_name -> "PASSED" in line` from the pytest output lines that
contain `" PASSED "` or `" FAILED "`.  `none` models the `IndexError` of
`parts[-1].split()[0]` on a line with no token after `::`, which the
surrounding `except Exception` turns into an empty mapping. -/
def parse_test_results (lines : List String) : Option (List (String × Bool)) :=
  lines.foldlM (fun acc line =>
    let l := pyStrip line
    if strContains l " PASSED " || strContains l " FAILED " then
      let parts := pySplitOn l "::"
      if parts.length ≥ 2 then
        match pySplitWs (parts.getLastD "") with
        | [] => none
        | t :: _ => some (dictSet t (strContains l "PASSED") acc)
      else some acc
    else some acc) []

/-- State of the second pass over the output lines (tools/changes.py
lines 124–150). -/
structure ScanState where
  in_section : Bool
  current_req : Option String
  acc : List (String × List String)

/-- One line of the second pass (tools/changes.py lines 127–150).  `isHeader`
models the configured-pattern match `re.match(rf"^(pattern):$", line)`.
Note the `elif "Requirements Coverage Summary" ... break` of the source is
unreachable because the summary line also contains `"Requirements Coverage"`
and is consumed by the first branch. -/
def scan_line (results : List (String × Bool)) (isHeader : String → Bool)
    (st : ScanState) (line : String) : ScanState :=
  if strContains (pyStrip line) "Requirements Coverage" then
    ⟨true, st.current_req, st.acc⟩
  else if ¬ st.in_section then st
  else
    match (if isHeader (pyStrip line) then
        some (pyUpper (pyDropRightWhile (pyStrip line) (fun c => c = ':')))
      else st.current_req) with
    | none => ⟨st.in_section, none, st.acc⟩
    | some req =>
        if pyStartsWith (pyStrip line) "✓" then
          if (dictGet (pyStrip (pyDropChars (pyStrip line) 2)) results).getD false then
            ⟨st.in_section, some req,
              dictAppend req (pyStrip (pyDropChars (pyStrip line) 2)) st.acc⟩
          else ⟨st.in_section, some req, st.acc⟩
        else ⟨st.in_section, some req, st.acc⟩

/-- `RequirementChangeDetector.get_test_coverage_mapping` (tools/changes.py
lines 86–156), applied to the captured pytest output lines: first pass
collects per-test results, second pass collects the requirements section,
keeping only tests whose result lookup with default `False` is true.  An
exception during the first pass yields the empty mapping (the `except`
branch returns `{}`). -/
def get_test_coverage_mapping (isHeader : String → Bool) (lines : List String) :
    List (String × List String) :=
  match parse_test_results lines with
  | none => []
  | some results => (lines.foldl (scan_line results isHeader) ⟨false, none, []⟩).acc

end RequirementChangeDetector

/-! ### Concrete sample inputs used by witnesses and counterexamples -/

/-- A concrete stand-in for `re.findall` of one pattern: every text matches as
the single lower-case identifier `fr-1`. -/
def sampleFindall : String → String → List String := fun _ _ => ["fr-1"]

/-- A concrete markdown `re.findall` stand-in for the change detector. -/
def sampleFindallMd : String → String → List (String × String) :=
  fun _ _ => [("fr-1", "Do X")]

/-- A collector whose parser has already memoized the valid set `{FR-1}`. -/
def sampleCollector : RequirementsCollector := ⟨[], [], [], some ["FR-1"]⟩

/-- A collector whose parser has memoized `{FR-2}`, so `FR-1` is invalid. -/
def sampleCollectorOther : RequirementsCollector := ⟨[], [], [], some ["FR-2"]⟩

/-- A concrete test item citing `fr-1` in its docstring. -/
def sampleItem : Item := ⟨"t1", "Requires: fr-1"⟩

/-- A concrete self-contained worker fragment: test `t1` cites `FR-1` and
passed. -/
def sampleFragment : Fragment :=
  ⟨[("t1", ["FR-1"])], [("FR-1", ["t1"])], [("t1", "passed")]⟩

/-- A concrete pytest verbose-output capture: `test_b` passed, `test_a`
failed, both listed under requirement `FR-1` in the coverage section. -/
def sampleLines : List String :=
  ["a.py::test_b PASSED [ 50%]",
   "a.py::test_a FAILED [100%]",
   "Requirements Coverage",
   "FR-1:",
   "✓ test_b",
   "✓ test_a"]

/-- The header matcher for the default `FR-`/`BR-` patterns, as needed for the
sample capture. -/
def sampleIsHeader : String → Bool := fun l => l = "FR-1:"

end Pytreqt

namespace Pytreqt

/-! ## Theorems -/

/-! ### Association-list and set-list lemmas -/

theorem dictGet_dictSet_self {α : Type} (k : String) (v : α) (l : List (String × α)) :
    dictGet k (dictSet k v l) = some v := by
  induction l with
  | nil => simp [dictGet, dictSet]
  | cons p ps ih =>
      by_cases h : p.1 = k
      · simp [dictSet, dictGet, h]
      · simp [dictSet, dictGet, h, ih]

theorem dictGet_dictSet_ne {α : Type} {k k' : String} (v : α) (l : List (String × α))
    (h : k' ≠ k) : dictGet k' (dictSet k v l) = dictGet k' l := by
  induction l with
  | nil => simp [dictGet, dictSet, Ne.symm h]
  | cons p ps ih =>
      dsimp only [dictSet]
      by_cases hp : p.1 = k
      · rw [if_pos hp]
        dsimp only [dictGet]
        rw [if_neg (Ne.symm h), if_neg (fun hk => h (hp ▸ hk).symm)]
      · rw [if_neg hp]
        dsimp only [dictGet]
        by_cases hp' : p.1 = k'
        · rw [if_pos hp', if_pos hp']
        · rw [if_neg hp', if_neg hp', ih]

theorem mem_keys_dictSet {α : Type} (k k' : String) (v : α) (l : List (String × α)) :
    k' ∈ keys (dictSet k v l) ↔ k' = k ∨ k' ∈ keys l := by
  induction l with
  | nil => simp [dictSet, keys]
  | cons p ps ih =>
      dsimp only [dictSet]
      by_cases h : p.1 = k
      · rw [if_pos h]
        simp only [keys, List.map_cons, List.mem_cons] at ih ⊢
        rw [h]
        tauto
      · rw [if_neg h]
        simp only [keys, List.map_cons, List.mem_cons] at ih ⊢
        rw [ih]
        tauto

theorem mem_keys_dictAppend (k k' t : String) (m : List (String × List String)) :
    k' ∈ keys (dictAppend k t m) ↔ k' = k ∨ k' ∈ keys m := by
  induction m with
  | nil => simp [dictAppend, keys]
  | cons p ps ih =>
      dsimp only [dictAppend]
      by_cases h : p.1 = k
      · rw [if_pos h]
        simp only [keys, List.map_cons, List.mem_cons] at ih ⊢
        rw [h]
        tauto
      · rw [if_neg h]
        simp only [keys, List.map_cons, List.mem_cons] at ih ⊢
        rw [ih]
        tauto

theorem dictAppend_values (P : String → Prop) {k t : String} (ht : P t) :
    ∀ m : List (String × List String), (∀ p ∈ m, ∀ x ∈ p.2, P x) →
      ∀ p ∈ dictAppend k t m, ∀ x ∈ p.2, P x := by
  intro m
  induction m with
  | nil =>
      intro _ p hp x hx
      simp [dictAppend] at hp
      subst hp
      simp at hx
      subst hx; exact ht
  | cons q qs ih =>
      intro hm p hp x hx
      by_cases h : q.1 = k
      · simp only [dictAppend, if_pos h, List.mem_cons] at hp
        rcases hp with rfl | hp
        · simp only [List.mem_append, List.mem_singleton] at hx
          rcases hx with hx | rfl
          · exact hm _ (List.mem_cons_self _ _) x hx
          · exact ht
        · exact hm p (List.mem_cons_of_mem _ hp) x hx
      · simp only [dictAppend, if_neg h, List.mem_cons] at hp
        rcases hp with rfl | hp
        · exact hm _ (List.mem_cons_self _ _) x hx
        · exact ih (fun r hr => hm r (List.mem_cons_of_mem _ hr)) p hp x hx

theorem dictGet_isSome_iff_mem_keys {α : Type} (k : String) (l : List (String × α)) :
    (dictGet k l).isSome ↔ k ∈ keys l := by
  induction l with
  | nil => simp [dictGet, keys]
  | cons p ps ih =>
      by_cases h : p.1 = k
      · simp [dictGet, keys, h]
      · simp only [dictGet, if_neg h, keys, List.map_cons, List.mem_cons] at ih ⊢
        rw [ih]
        constructor
        · tauto
        · rintro (hk | hk)
          · exact absurd hk.symm h
          · exact hk

theorem mem_of_dictGet {α : Type} {k : String} {v : α} {l : List (String × α)}
    (h : dictGet k l = some v) : (k, v) ∈ l := by
  induction l with
  | nil => simp [dictGet] at h
  | cons p ps ih =>
      simp only [dictGet] at h
      by_cases hp : p.1 = k
      · rw [if_pos hp] at h
        have hv : p.2 = v := Option.some.inj h
        rw [List.mem_cons]
        exact Or.inl (Prod.ext hp hv).symm
      · rw [if_neg hp] at h
        exact List.mem_cons_of_mem _ (ih h)

theorem mem_setAdd (s : List String) (x y : String) :
    y ∈ setAdd s x ↔ y ∈ s ∨ y = x := by
  unfold setAdd
  by_cases h : x ∈ s
  · rw [if_pos h]
    constructor
    · exact Or.inl
    · rintro (hy | rfl)
      · exact hy
      · exact h
  · rw [if_neg h]
    simp

theorem nodup_setAdd (s : List String) (x : String) (h : s.Nodup) :
    (setAdd s x).Nodup := by
  unfold setAdd
  by_cases hx : x ∈ s
  · rw [if_pos hx]; exact h
  · rw [if_neg hx]
    simpa [List.nodup_append] using ⟨h, hx⟩

theorem mem_setUpdate (xs : List String) :
    ∀ (s : List String) (y : String), y ∈ setUpdate s xs ↔ y ∈ s ∨ y ∈ xs := by
  induction xs with
  | nil => simp [setUpdate]
  | cons x xs ih =>
      intro s y
      simp only [setUpdate, List.foldl_cons] at ih ⊢
      rw [ih, mem_setAdd]
      simp only [List.mem_cons]
      tauto

theorem nodup_setUpdate (xs : List String) :
    ∀ s : List String, s.Nodup → (setUpdate s xs).Nodup := by
  induction xs with
  | nil => intro s h; simpa [setUpdate] using h
  | cons x xs ih =>
      intro s h
      simp only [setUpdate, List.foldl_cons] at ih ⊢
      exact ih _ (nodup_setAdd s x h)

theorem mem_setDiff (s t : List String) (y : String) :
    y ∈ setDiff s t ↔ y ∈ s ∧ y ∉ t := by
  simp [setDiff]

theorem setDiff_eq_nil_iff_subset (s t : List String) :
    setDiff s t = [] ↔ s ⊆ t := by
  constructor
  · intro h y hy
    by_contra hyt
    have : y ∈ setDiff s t := (mem_setDiff s t y).mpr ⟨hy, hyt⟩
    simp [h] at this
  · intro h
    rw [List.eq_nil_iff_forall_not_mem]
    intro y hy
    rcases (mem_setDiff s t y).mp hy with ⟨hys, hyt⟩
    exact hyt (h hys)

/-- Membership in a left fold that set-updates an accumulator with per-element
match lists (the shape of the Python `set.update` loops). -/
theorem mem_foldl_setUpdate {β : Type} (f : β → List String) :
    ∀ (l : List β) (init : List String) (r : String),
      r ∈ l.foldl (fun acc p => setUpdate acc (f p)) init ↔
        r ∈ init ∨ ∃ p ∈ l, r ∈ f p := by
  intro l
  induction l with
  | nil => simp
  | cons p ps ih =>
      intro init r
      simp only [List.foldl_cons, ih, mem_setUpdate, List.mem_cons]
      constructor
      · rintro (⟨h | h⟩ | ⟨q, hq, hr⟩)
        · exact Or.inl h
        · exact Or.inr ⟨p, Or.inl rfl, h⟩
        · exact Or.inr ⟨q, Or.inr hq, hr⟩
      · rintro (h | ⟨q, hq | hq, hr⟩)
        · exact Or.inl (Or.inl h)
        · subst hq; exact Or.inl (Or.inr hr)
        · exact Or.inr ⟨q, hq, hr⟩

/-- The folds of the Python `set.update` loops preserve duplicate-freedom. -/
theorem nodup_foldl_setUpdate {β : Type} (f : β → List String) :
    ∀ (l : List β) (init : List String), init.Nodup →
      (l.foldl (fun acc p => setUpdate acc (f p)) init).Nodup := by
  intro l
  induction l with
  | nil => intro init h; simpa using h
  | cons p ps ih =>
      intro init h
      simp only [List.foldl_cons]
      exact ih _ (nodup_setUpdate (f p) init h)

theorem mem_dictSet_elim {α : Type} (k : String) (v : α) :
    ∀ l : List (String × α), ∀ p ∈ dictSet k v l, p = (k, v) ∨ p ∈ l := by
  intro l
  induction l with
  | nil =>
      intro p hp
      simp only [dictSet, List.mem_singleton] at hp
      exact Or.inl hp
  | cons q qs ih =>
      intro p hp
      dsimp only [dictSet] at hp
      by_cases h : q.1 = k
      · rw [if_pos h] at hp
        rcases List.mem_cons.mp hp with rfl | hp
        · exact Or.inl rfl
        · exact Or.inr (List.mem_cons_of_mem _ hp)
      · rw [if_neg h] at hp
        rcases List.mem_cons.mp hp with rfl | hp
        · exact Or.inr (List.mem_cons_self _ _)
        · rcases ih p hp with h1 | h1
          · exact Or.inl h1
          · exact Or.inr (List.mem_cons_of_mem _ h1)

theorem append_tests_values (P : String → Prop) {t : String} (ht : P t) :
    ∀ (rs : List String) (m : List (String × List String)),
      (∀ p ∈ m, ∀ x ∈ p.2, P x) →
      ∀ p ∈ RequirementsCollector.append_tests m rs t, ∀ x ∈ p.2, P x := by
  intro rs
  induction rs with
  | nil =>
      intro m hm
      simpa [RequirementsCollector.append_tests] using hm
  | cons r rs ih =>
      intro m hm
      simp only [RequirementsCollector.append_tests, List.foldl_cons] at ih ⊢
      exact ih _ (dictAppend_values P ht m hm)

theorem mem_keys_append_tests (rs : List String) :
    ∀ (m : List (String × List String)) (t k : String),
      k ∈ keys (RequirementsCollector.append_tests m rs t) ↔ k ∈ rs ∨ k ∈ keys m := by
  induction rs with
  | nil => simp [RequirementsCollector.append_tests]
  | cons r rs ih =>
      intro m t k
      simp only [RequirementsCollector.append_tests, List.foldl_cons] at ih ⊢
      rw [ih, mem_keys_dictAppend]
      simp only [List.mem_cons]
      tauto

theorem dictGet_dictAppend_self (k t : String) :
    ∀ m : List (String × List String),
      dictGet k (dictAppend k t m) = some ((dictGet k m).getD [] ++ [t]) := by
  intro m
  induction m with
  | nil => simp [dictAppend, dictGet]
  | cons p ps ih =>
      dsimp only [dictAppend, dictGet]
      by_cases h : p.1 = k
      · simp [dictGet, h]
      · simp [dictGet, h, ih]

theorem dictGet_dictAppend_ne {k k' : String} (t : String) (h : k' ≠ k) :
    ∀ m : List (String × List String),
      dictGet k' (dictAppend k t m) = dictGet k' m := by
  intro m
  induction m with
  | nil => simp [dictGet, dictAppend, Ne.symm h]
  | cons p ps ih =>
      dsimp only [dictAppend]
      by_cases hp : p.1 = k
      · rw [if_pos hp]
        dsimp only [dictGet]
        rw [if_neg (fun hk => h (hp ▸ hk).symm), if_neg (fun hk => h (hp ▸ hk).symm)]
      · rw [if_neg hp]
        dsimp only [dictGet]
        by_cases hp' : p.1 = k'
        · rw [if_pos hp', if_pos hp']
        · rw [if_neg hp', if_neg hp', ih]

theorem append_tests_cons (m : List (String × List String)) (x : String)
    (rs : List String) (t : String) :
    RequirementsCollector.append_tests m (x :: rs) t =
      RequirementsCollector.append_tests (dictAppend x t m) rs t := rfl

theorem append_tests_get_not_mem (t r : String) :
    ∀ (rs : List String) (m : List (String × List String)), r ∉ rs →
      dictGet r (RequirementsCollector.append_tests m rs t) = dictGet r m := by
  intro rs
  induction rs with
  | nil =>
      intro m _
      rfl
  | cons x rs' ih =>
      intro m hr
      simp only [List.mem_cons, not_or] at hr
      rw [append_tests_cons, ih _ hr.2, dictGet_dictAppend_ne t hr.1]

theorem append_tests_get_mem (t r : String) :
    ∀ (rs : List String) (m : List (String × List String)), rs.Nodup → r ∈ rs →
      dictGet r (RequirementsCollector.append_tests m rs t) =
        some ((dictGet r m).getD [] ++ [t]) := by
  intro rs
  induction rs with
  | nil =>
      intro m _ hr
      simp at hr
  | cons x rs' ih =>
      intro m hnd hr
      rw [append_tests_cons]
      rcases List.mem_cons.mp hr with rfl | hr'
      · rw [append_tests_get_not_mem t r rs' _ (List.nodup_cons.mp hnd).1,
          dictGet_dictAppend_self]
      · have hrx : r ≠ x := fun he => (List.nodup_cons.mp hnd).1 (he ▸ hr')
        rw [ih (dictAppend x t m) (List.nodup_cons.mp hnd).2 hr',
          dictGet_dictAppend_ne t hrx]

theorem extract_requirements_nodup (findall : String → String → List String)
    (patterns : List String) (docstring : String) :
    (RequirementsParser.extract_requirements findall patterns docstring).Nodup := by
  unfold RequirementsParser.extract_requirements
  by_cases h : docstring = ""
  · simp [h]
  · rw [if_neg h]
    exact nodup_foldl_setUpdate _ patterns [] (by simp)

theorem dictUpdate_cons {α : Type} (l : List (String × α)) (q : String × α)
    (qs : List (String × α)) :
    dictUpdate l (q :: qs) = dictUpdate (dictSet q.1 q.2 l) qs := rfl

theorem mem_dictUpdate_elim {α : Type} :
    ∀ (u l : List (String × α)) (p : String × α),
      p ∈ dictUpdate l u → p ∈ l ∨ p ∈ u := by
  intro u
  induction u with
  | nil =>
      intro l p hp
      exact Or.inl hp
  | cons q qs ih =>
      intro l p hp
      rw [dictUpdate_cons] at hp
      rcases ih _ p hp with hp' | hp'
      · rcases mem_dictSet_elim q.1 q.2 l p hp' with rfl | hp''
        · exact Or.inr (List.mem_cons_self _ _)
        · exact Or.inl hp''
      · exact Or.inr (List.mem_cons_of_mem _ hp')

theorem mem_keys_dictUpdate {α : Type} (upd : List (String × α)) :
    ∀ (l : List (String × α)) (k : String),
      k ∈ keys (dictUpdate l upd) ↔ k ∈ keys l ∨ k ∈ keys upd := by
  induction upd with
  | nil => simp [dictUpdate, keys]
  | cons p ps ih =>
      intro l k
      simp only [dictUpdate, List.foldl_cons] at ih ⊢
      rw [ih, mem_keys_dictSet]
      simp only [keys, List.map_cons, List.mem_cons]
      tauto

theorem mem_keys_aggregate (frags : List Fragment) :
    ∀ (acc : Fragment) (k : String),
      k ∈ keys (frags.foldl aggregate_step acc).test_requirements ↔
        k ∈ keys acc.test_requirements ∨
          ∃ f ∈ frags, k ∈ keys f.test_requirements := by
  induction frags with
  | nil => simp
  | cons f fs ih =>
      intro acc k
      simp only [List.foldl_cons]
      rw [ih]
      have hstep : (aggregate_step acc f).test_requirements =
          dictUpdate acc.test_requirements f.test_requirements := rfl
      rw [hstep, mem_keys_dictUpdate]
      constructor
      · rintro (⟨hk | hk⟩ | ⟨g, hg, hk⟩)
        · exact Or.inl hk
        · exact Or.inr ⟨f, List.mem_cons_self _ _, hk⟩
        · exact Or.inr ⟨g, List.mem_cons_of_mem _ hg, hk⟩
      · rintro (hk | ⟨g, hg, hk⟩)
        · exact Or.inl (Or.inl hk)
        · rcases List.mem_cons.mp hg with rfl | hg
          · exact Or.inl (Or.inr hk)
          · exact Or.inr ⟨g, hg, hk⟩

theorem mem_keys_dedupAppend (m : List (String × List String)) (req t k : String) :
    k ∈ keys (dedupAppend m req t) ↔ k = req ∨ k ∈ keys m := by
  unfold dedupAppend
  cases hg : dictGet req m with
  | none => rw [mem_keys_dictAppend]
  | some ts =>
      dsimp only
      by_cases htt : t ∈ ts
      · rw [if_pos htt]
        constructor
        · exact Or.inr
        · rintro (rfl | hk)
          · exact (dictGet_isSome_iff_mem_keys k m).mp (by rw [hg]; rfl)
          · exact hk
      · rw [if_neg htt, mem_keys_dictAppend]

theorem dedupAppend_values (P : String → Prop) {t : String} (ht : P t)
    (m : List (String × List String)) (req : String)
    (hm : ∀ q ∈ m, ∀ x ∈ q.2, P x) :
    ∀ q ∈ dedupAppend m req t, ∀ x ∈ q.2, P x := by
  unfold dedupAppend
  cases hg : dictGet req m with
  | none => exact dictAppend_values P ht m hm
  | some ts =>
      dsimp only
      by_cases htt : t ∈ ts
      · rw [if_pos htt]
        exact hm
      · rw [if_neg htt]
        exact dictAppend_values P ht m hm

theorem dictAppend_nodup_values {k t : String} :
    ∀ m : List (String × List String), (∀ q ∈ m, q.2.Nodup) →
      (dictGet k m = none ∨ ∃ ts, dictGet k m = some ts ∧ t ∉ ts) →
      ∀ q ∈ dictAppend k t m, q.2.Nodup := by
  intro m
  induction m with
  | nil =>
      intro _ _ q hq
      simp [dictAppend] at hq
      subst hq
      simp
  | cons p ps ih =>
      intro hm hcond q hq
      dsimp only [dictAppend] at hq
      by_cases h : p.1 = k
      · rw [if_pos h] at hq
        rcases List.mem_cons.mp hq with rfl | hq'
        · have hgp : dictGet k (p :: ps) = some p.2 := by simp [dictGet, h]
          rcases hcond with hnone | ⟨ts, hts, htts⟩
          · rw [hgp] at hnone
            exact absurd hnone (by simp)
          · rw [hgp] at hts
            have hteq : ts = p.2 := Option.some.inj hts.symm
            subst hteq
            refine List.Nodup.append (hm p (List.mem_cons_self _ _)) (by simp) ?_
            intro a ha hb
            rw [List.mem_singleton] at hb
            subst hb
            exact htts ha
        · exact hm q (List.mem_cons_of_mem _ hq')
      · rw [if_neg h] at hq
        rcases List.mem_cons.mp hq with rfl | hq'
        · exact hm _ (List.mem_cons_self _ _)
        · have hstep : dictGet k (p :: ps) = dictGet k ps := by simp [dictGet, h]
          have hcond' : dictGet k ps = none ∨ ∃ ts, dictGet k ps = some ts ∧ t ∉ ts := by
            rcases hcond with h1 | ⟨ts, h1, h2⟩
            · rw [hstep] at h1
              exact Or.inl h1
            · rw [hstep] at h1
              exact Or.inr ⟨ts, h1, h2⟩
          exact ih (fun r hr => hm r (List.mem_cons_of_mem _ hr)) hcond' q hq'

theorem dedupAppend_nodup (m : List (String × List String)) (req t : String)
    (hm : ∀ q ∈ m, q.2.Nodup) :
    ∀ q ∈ dedupAppend m req t, q.2.Nodup := by
  unfold dedupAppend
  cases hg : dictGet req m with
  | none => exact dictAppend_nodup_values m hm (Or.inl hg)
  | some ts =>
      dsimp only
      by_cases htt : t ∈ ts
      · rw [if_pos htt]
        exact hm
      · rw [if_neg htt]
        exact dictAppend_nodup_values m hm (Or.inr ⟨ts, hg, htt⟩)

theorem dedupAppend_extends (m : List (String × List String)) (req t k : String) :
    List.IsPrefix ((dictGet k m).getD [])
      ((dictGet k (dedupAppend m req t)).getD []) := by
  unfold dedupAppend
  by_cases hk : k = req
  · subst hk
    cases hg : dictGet k m with
    | none =>
        rw [dictGet_dictAppend_self, hg]
        simp only [Option.getD_none, Option.getD_some, List.nil_append]
        exact List.prefix_append _ _
    | some ts =>
        dsimp only
        by_cases htt : t ∈ ts
        · rw [if_pos htt, hg]
        · rw [if_neg htt, dictGet_dictAppend_self, hg]
          simp only [Option.getD_some]
          exact List.prefix_append _ _
  · cases hg : dictGet req m with
    | none =>
        dsimp only
        rw [dictGet_dictAppend_ne t hk]
    | some ts =>
        dsimp only
        by_cases htt : t ∈ ts
        · rw [if_pos htt]
        · rw [if_neg htt, dictGet_dictAppend_ne t hk]

theorem inner_fold_keys_mono (req : String) :
    ∀ (ts : List String) (m : List (String × List String)) (k : String),
      k ∈ keys m → k ∈ keys (ts.foldl (fun m t => dedupAppend m req t) m) := by
  intro ts
  induction ts with
  | nil =>
      intro m k hk
      exact hk
  | cons t ts' ih =>
      intro m k hk
      simp only [List.foldl_cons]
      exact ih _ k ((mem_keys_dedupAppend m req t k).mpr (Or.inr hk))

theorem inner_fold_key_self (req : String) (ts : List String)
    (m : List (String × List String)) (hts : ts ≠ []) :
    req ∈ keys (ts.foldl (fun m t => dedupAppend m req t) m) := by
  cases ts with
  | nil => exact absurd rfl hts
  | cons t ts' =>
      simp only [List.foldl_cons]
      exact inner_fold_keys_mono req ts' _ req
        ((mem_keys_dedupAppend m req t req).mpr (Or.inl rfl))

theorem inner_fold_values (P : String → Prop) (req : String) :
    ∀ (ts : List String) (m : List (String × List String)),
      (∀ x ∈ ts, P x) → (∀ q ∈ m, ∀ y ∈ q.2, P y) →
      ∀ q ∈ ts.foldl (fun m t => dedupAppend m req t) m, ∀ y ∈ q.2, P y := by
  intro ts
  induction ts with
  | nil =>
      intro m _ hm
      exact hm
  | cons t ts' ih =>
      intro m hts hm
      simp only [List.foldl_cons]
      exact ih _ (fun x hx => hts x (List.mem_cons_of_mem _ hx))
        (dedupAppend_values P (hts t (List.mem_cons_self _ _)) m req hm)

theorem inner_fold_nodup (req : String) :
    ∀ (ts : List String) (m : List (String × List String)),
      (∀ q ∈ m, q.2.Nodup) →
      ∀ q ∈ ts.foldl (fun m t => dedupAppend m req t) m, q.2.Nodup := by
  intro ts
  induction ts with
  | nil =>
      intro m hm
      exact hm
  | cons t ts' ih =>
      intro m hm
      simp only [List.foldl_cons]
      exact ih _ (dedupAppend_nodup m req t hm)

theorem inner_fold_extends (req : String) :
    ∀ (ts : List String) (m : List (String × List String)) (k : String),
      List.IsPrefix ((dictGet k m).getD [])
        ((dictGet k (ts.foldl (fun m t => dedupAppend m req t) m)).getD []) := by
  intro ts
  induction ts with
  | nil =>
      intro m k
      exact List.prefix_refl _
  | cons t ts' ih =>
      intro m k
      simp only [List.foldl_cons]
      exact (dedupAppend_extends m req t k).trans (ih _ k)

theorem merge_requirement_tests_cons (m : List (String × List String))
    (q : String × List String) (qs : List (String × List String)) :
    merge_requirement_tests m (q :: qs) =
      merge_requirement_tests (q.2.foldl (fun m t => dedupAppend m q.1 t) m) qs := rfl

theorem merge_requirement_tests_keys_mono :
    ∀ (frag m : List (String × List String)) (k : String),
      k ∈ keys m → k ∈ keys (merge_requirement_tests m frag) := by
  intro frag
  induction frag with
  | nil =>
      intro m k hk
      exact hk
  | cons q qs ih =>
      intro m k hk
      rw [merge_requirement_tests_cons]
      exact ih _ k (inner_fold_keys_mono q.1 q.2 m k hk)

theorem merge_requirement_tests_key_of_mem :
    ∀ (frag m : List (String × List String)) (r : String) (ts : List String),
      (r, ts) ∈ frag → ts ≠ [] → r ∈ keys (merge_requirement_tests m frag) := by
  intro frag
  induction frag with
  | nil =>
      intro m r ts h
      simp at h
  | cons q qs ih =>
      intro m r ts hmem hts
      rw [merge_requirement_tests_cons]
      rcases List.mem_cons.mp hmem with rfl | hmem'
      · exact merge_requirement_tests_keys_mono qs _ r (inner_fold_key_self r ts m hts)
      · exact ih _ r ts hmem' hts

theorem merge_requirement_tests_values (P : String → Prop) :
    ∀ (frag m : List (String × List String)),
      (∀ q ∈ frag, ∀ t ∈ q.2, P t) → (∀ q ∈ m, ∀ y ∈ q.2, P y) →
      ∀ q ∈ merge_requirement_tests m frag, ∀ y ∈ q.2, P y := by
  intro frag
  induction frag with
  | nil =>
      intro m _ hm
      exact hm
  | cons q qs ih =>
      intro m hfrag hm
      rw [merge_requirement_tests_cons]
      exact ih _ (fun q' hq' => hfrag q' (List.mem_cons_of_mem _ hq'))
        (inner_fold_values P q.1 q.2 m (hfrag q (List.mem_cons_self _ _)) hm)

theorem merge_requirement_tests_nodup :
    ∀ (frag m : List (String × List String)),
      (∀ q ∈ m, q.2.Nodup) →
      ∀ q ∈ merge_requirement_tests m frag, q.2.Nodup := by
  intro frag
  induction frag with
  | nil =>
      intro m hm
      exact hm
  | cons q qs ih =>
      intro m hm
      rw [merge_requirement_tests_cons]
      exact ih _ (inner_fold_nodup q.1 q.2 m hm)

theorem merge_requirement_tests_extends :
    ∀ (frag m : List (String × List String)) (k : String),
      List.IsPrefix ((dictGet k m).getD [])
        ((dictGet k (merge_requirement_tests m frag)).getD []) := by
  intro frag
  induction frag with
  | nil =>
      intro m k
      exact List.prefix_refl _
  | cons q qs ih =>
      intro m k
      rw [merge_requirement_tests_cons]
      exact (inner_fold_extends q.1 q.2 m k).trans (ih _ k)

theorem aggregate_nodup :
    ∀ (frags : List Fragment) (acc : Fragment),
      (∀ q ∈ acc.requirement_tests, q.2.Nodup) →
      ∀ q ∈ (frags.foldl aggregate_step acc).requirement_tests, q.2.Nodup := by
  intro frags
  induction frags with
  | nil =>
      intro acc hacc
      exact hacc
  | cons f fs ih =>
      intro acc hacc
      simp only [List.foldl_cons]
      exact ih _ (merge_requirement_tests_nodup f.requirement_tests
        acc.requirement_tests hacc)

theorem aggregate_extends :
    ∀ (frags : List Fragment) (acc : Fragment) (k : String),
      List.IsPrefix ((dictGet k acc.requirement_tests).getD [])
        ((dictGet k (frags.foldl aggregate_step acc).requirement_tests).getD []) := by
  intro frags
  induction frags with
  | nil =>
      intro acc k
      exact List.prefix_refl _
  | cons f fs ih =>
      intro acc k
      simp only [List.foldl_cons]
      exact (merge_requirement_tests_extends f.requirement_tests
        acc.requirement_tests k).trans (ih (aggregate_step acc f) k)

theorem aggregate_containment :
    ∀ (frags : List Fragment) (acc : Fragment),
      (∀ f ∈ frags, f.self_contained) →
      (∀ q ∈ acc.requirement_tests, ∀ t ∈ q.2, t ∈ keys acc.test_requirements) →
      (∀ p ∈ acc.test_requirements, ∀ r ∈ p.2, r ∈ keys acc.requirement_tests) →
      (∀ q ∈ (frags.foldl aggregate_step acc).requirement_tests, ∀ t ∈ q.2,
         t ∈ keys (frags.foldl aggregate_step acc).test_requirements) ∧
      (∀ p ∈ (frags.foldl aggregate_step acc).test_requirements, ∀ r ∈ p.2,
         r ∈ keys (frags.foldl aggregate_step acc).requirement_tests) := by
  intro frags
  induction frags with
  | nil =>
      intro acc _ h1 h2
      exact ⟨h1, h2⟩
  | cons f fs ih =>
      intro acc hsc h1 h2
      simp only [List.foldl_cons]
      refine ih (aggregate_step acc f)
        (fun g hg => hsc g (List.mem_cons_of_mem _ hg)) ?_ ?_
      · intro q hq t htq
        refine merge_requirement_tests_values
          (fun y => y ∈ keys (dictUpdate acc.test_requirements f.test_requirements))
          f.requirement_tests acc.requirement_tests ?_ ?_ q hq t htq
        · intro q' hq' t' ht'
          exact (mem_keys_dictUpdate _ _ _).mpr
            (Or.inr ((hsc f (List.mem_cons_self _ _)).2 q' hq' t' ht'))
        · intro q' hq' y hy
          exact (mem_keys_dictUpdate _ _ _).mpr (Or.inl (h1 q' hq' y hy))
      · intro p hp r hr
        rcases mem_dictUpdate_elim f.test_requirements acc.test_requirements p hp
          with hp' | hp'
        · exact merge_requirement_tests_keys_mono f.requirement_tests
            acc.requirement_tests r (h2 p hp' r hr)
        · rcases (hsc f (List.mem_cons_self _ _)).1 p hp' r hr with ⟨ts, hts, hpts⟩
          refine merge_requirement_tests_key_of_mem f.requirement_tests
            acc.requirement_tests r ts (mem_of_dictGet hts) ?_
          intro he
          subst he
          exact List.not_mem_nil _ hpts

theorem scan_line_only_passed (results : List (String × Bool))
    (isHeader : String → Bool) (st : RequirementChangeDetector.ScanState)
    (line : String)
    (h : ∀ p ∈ st.acc, ∀ x ∈ p.2, dictGet x results = some true) :
    ∀ p ∈ (RequirementChangeDetector.scan_line results isHeader st line).acc,
      ∀ x ∈ p.2, dictGet x results = some true := by
  unfold RequirementChangeDetector.scan_line
  split
  · exact h
  · split
    · exact h
    · split
      · exact h
      · split
        · split
          · rename_i hcond
            have ht : dictGet (pyStrip (pyDropChars (pyStrip line) 2)) results =
                some true := by
              rcases hg : dictGet (pyStrip (pyDropChars (pyStrip line) 2)) results
                with _ | b
              · rw [hg] at hcond
                simp at hcond
              · rw [hg] at hcond
                simp only [Option.getD_some] at hcond
                rw [hcond]
            exact dictAppend_values (fun y => dictGet y results = some true) ht
              st.acc h
          · exact h
        · exact h

theorem foldl_scan_only_passed (results : List (String × Bool))
    (isHeader : String → Bool) :
    ∀ (lines : List String) (st : RequirementChangeDetector.ScanState),
      (∀ p ∈ st.acc, ∀ x ∈ p.2, dictGet x results = some true) →
      ∀ p ∈ (lines.foldl (RequirementChangeDetector.scan_line results isHeader)
          st).acc,
        ∀ x ∈ p.2, dictGet x results = some true := by
  intro lines
  induction lines with
  | nil =>
      intro st h
      simpa using h
  | cons line rest ih =>
      intro st h
      simp only [List.foldl_cons]
      exact ih _ (scan_line_only_passed results isHeader st line h)

/-! ### Claim theorems -/

/-- C1: `validate_requirements refs owner` raises an unknown-requirement error
naming the owning test and the offending identifiers if and only if the valid
set loaded from the requirements document is non-empty and `refs` is not a
subset of it; when the valid set is empty (absent or unreadable document) it
never raises. -/
theorem C1_validate_raises_iff_nonempty_and_not_subset
    (findallDoc : String → String → List String) (patterns : List String)
    (file : FileRead) (requirements : List String) (test_name : String)
    (st : Option (List String)) :
    (RequirementsParser.validate_requirements findallDoc patterns file requirements
        test_name st).1 =
      (if (RequirementsParser.load_valid_requirements findallDoc patterns file st).1 ≠ [] ∧
          ¬ requirements ⊆
            (RequirementsParser.load_valid_requirements findallDoc patterns file st).1
       then some ⟨test_name,
          setDiff requirements
            (RequirementsParser.load_valid_requirements findallDoc patterns file st).1⟩
       else none) := by
  unfold RequirementsParser.validate_requirements
  by_cases h1 :
      (RequirementsParser.load_valid_requirements findallDoc patterns file st).1 = []
  · simp [h1]
  · by_cases h2 :
        setDiff requirements
          (RequirementsParser.load_valid_requirements findallDoc patterns file st).1 = []
    · have hsub := (setDiff_eq_nil_iff_subset _ _).mp h2
      simp [h1, h2, hsub]
    · have hnsub : ¬ requirements ⊆
          (RequirementsParser.load_valid_requirements findallDoc patterns file st).1 :=
        fun hsub => h2 ((setDiff_eq_nil_iff_subset _ _).mpr hsub)
      simp [h1, h2, hnsub]

/-- C2: `extract_requirements patterns text` returns exactly the identifiers
matched by some configured pattern (case-insensitive matching is inside the
`findall` collaborator), each upper-cased, unioned across all patterns with
duplicates collapsed; the empty docstring yields the empty set and never an
error. -/
theorem C2_extract_upper_union_and_empty
    (findall : String → String → List String) (patterns : List String)
    (docstring : String) :
    (∀ r, r ∈ RequirementsParser.extract_requirements findall patterns docstring ↔
        (docstring ≠ "" ∧ ∃ p ∈ patterns, ∃ m ∈ findall p docstring, r = pyUpper m)) ∧
    (RequirementsParser.extract_requirements findall patterns docstring).Nodup ∧
    RequirementsParser.extract_requirements findall patterns "" = [] := by
  refine ⟨?_, ?_, ?_⟩
  · intro r
    by_cases h : docstring = ""
    · subst h
      simp [RequirementsParser.extract_requirements]
    · simp only [RequirementsParser.extract_requirements, if_neg h]
      rw [mem_foldl_setUpdate
        (fun pattern => (findall pattern docstring).map pyUpper) patterns [] r]
      simp only [List.not_mem_nil, false_or, List.mem_map]
      constructor
      · rintro ⟨p, hp, m, hm, rfl⟩
        exact ⟨h, p, hp, m, hm, rfl⟩
      · rintro ⟨-, p, hp, m, hm, rfl⟩
        exact ⟨p, hp, m, hm, rfl⟩
  · by_cases h : docstring = ""
    · simp [RequirementsParser.extract_requirements, h]
    · simp only [RequirementsParser.extract_requirements, if_neg h]
      exact nodup_foldl_setUpdate _ patterns [] (by simp)
  · simp [RequirementsParser.extract_requirements]

/-- C9: after the first call to `load_valid_requirements`, every later call
returns the same memoized set and state without re-reading the file (the
second call's result is independent of the file's new state), including when
the first load memoized the empty set for a missing or unreadable document. -/
theorem C9_load_valid_requirements_memoized
    (findallDoc : String → String → List String) (patterns : List String)
    (file1 file2 : FileRead) (st : Option (List String)) :
    RequirementsParser.load_valid_requirements findallDoc patterns file2
      (RequirementsParser.load_valid_requirements findallDoc patterns file1 st).2 =
    RequirementsParser.load_valid_requirements findallDoc patterns file1 st := by
  cases st with
  | some v => rfl
  | none =>
      cases file1 with
      | missing => rfl
      | unreadable => rfl
      | content c => rfl

/-- C10: the change report's affected tests come only from passing tests:
every test in the coverage mapping built from the captured pytest output —
and hence every test in `affected_tests` of a `detect_changes` call using that
mapping — was recorded as `PASSED` in the first parsing pass; failed tests
and tests whose result could not be determined are filtered out. -/
theorem C10_affected_tests_only_passing (isHeader : String → Bool)
    (lines : List String) :
    (∀ req ts t,
        (req, ts) ∈ RequirementChangeDetector.get_test_coverage_mapping isHeader lines →
        t ∈ ts →
        ∃ results, RequirementChangeDetector.parse_test_results lines = some results ∧
          dictGet t results = some true) ∧
    (∀ (hash : String → String)
        (findallMd : String → String → List (String × String)) (patterns : List String)
        (doc : Option String) (cache : HashCache) (now : String) (t : String),
        t ∈ (RequirementChangeDetector.detect_changes hash findallMd patterns doc cache
              (RequirementChangeDetector.get_test_coverage_mapping isHeader lines)
              now).1.affected_tests →
        ∃ results, RequirementChangeDetector.parse_test_results lines = some results ∧
          dictGet t results = some true) := by
  have main : ∀ req ts t,
      (req, ts) ∈ RequirementChangeDetector.get_test_coverage_mapping isHeader lines →
      t ∈ ts →
      ∃ results, RequirementChangeDetector.parse_test_results lines = some results ∧
        dictGet t results = some true := by
    intro req ts t hmem ht
    unfold RequirementChangeDetector.get_test_coverage_mapping at hmem
    cases hres : RequirementChangeDetector.parse_test_results lines with
    | none =>
        rw [hres] at hmem
        simp at hmem
    | some results =>
        rw [hres] at hmem
        refine ⟨results, rfl, ?_⟩
        exact foldl_scan_only_passed results isHeader lines ⟨false, none, []⟩
          (by simp) (req, ts) hmem t ht
  refine ⟨main, ?_⟩
  intro hash findallMd patterns doc cache now t ht
  by_cases h : RequirementChangeDetector.get_requirements_hash hash doc = cache.file_hash
  · rw [RequirementChangeDetector.detect_changes] at ht
    simp [h] at ht
  · rw [RequirementChangeDetector.detect_changes] at ht
    simp only [h, if_false] at ht
    rw [mem_foldl_setUpdate
      (fun id => (dictGet id
        (RequirementChangeDetector.get_test_coverage_mapping isHeader lines)).getD [])]
      at ht
    simp only [List.not_mem_nil, false_or] at ht
    rcases ht with ⟨id, hid, htid⟩
    cases hg : dictGet id (RequirementChangeDetector.get_test_coverage_mapping
        isHeader lines) with
    | none =>
        rw [hg] at htid
        simp at htid
    | some ts =>
        rw [hg] at htid
        simp only [Option.getD_some] at htid
        exact main id ts t (mem_of_dictGet hg) htid

/-- Witness for C10 at a concrete input: `test_b` is listed under `FR-1` in
the sample capture, and its parsed result is indeed `PASSED`. -/
theorem C10_witness_mapped_test_passed :
    ∃ results, RequirementChangeDetector.parse_test_results sampleLines =
        some results ∧
      dictGet "test_b" results = some true :=
  (C10_affected_tests_only_passing sampleIsHeader sampleLines).1 "FR-1" ["test_b"]
    "test_b" (by decide) (by decide)

/-- C4 (counterexample): `detect_changes` does not persist the new snapshot
unconditionally, and a call need not end with the store reflecting the
current document.  With a prior cache whose document hash matches but whose
per-requirement hashes are stale, the short-circuit branch returns without
writing, leaving the store's `requirement_hashes` different from the current
document's snapshot. -/
theorem C4_counterexample_short_circuit_leaves_stale_store :
    ((RequirementChangeDetector.detect_changes (fun s => s) sampleFindallMd ["P"]
        (some "D") ⟨some "D", [], "t0"⟩ [] "t0").2).requirement_hashes = [] ∧
    (RequirementChangeDetector.current_snapshot (fun s => s) sampleFindallMd ["P"]
        (some "D") "t0").requirement_hashes = [("FR-1", "FR-1:Do X")] := by
  constructor
  · decide
  · decide

/-- C4 (amended): the new `RequirementHashSnapshot` is persisted exactly in
the changed branch: when the report says the document changed, the call ends
with the store equal to the current document's snapshot; when it says
unchanged, nothing is written and the store is left as it was before the
call. -/
theorem C4_amended_snapshot_persisted_only_on_change
    (hash : String → String)
    (findallMd : String → String → List (String × String)) (patterns : List String)
    (doc : Option String) (cache : HashCache)
    (req_to_tests : List (String × List String)) (now : String) :
    ((RequirementChangeDetector.detect_changes hash findallMd patterns doc cache
        req_to_tests now).1.file_changed = true →
      (RequirementChangeDetector.detect_changes hash findallMd patterns doc cache
        req_to_tests now).2 =
        RequirementChangeDetector.current_snapshot hash findallMd patterns doc now) ∧
    ((RequirementChangeDetector.detect_changes hash findallMd patterns doc cache
        req_to_tests now).1.file_changed = false →
      (RequirementChangeDetector.detect_changes hash findallMd patterns doc cache
        req_to_tests now).2 = cache) := by
  unfold RequirementChangeDetector.detect_changes
    RequirementChangeDetector.current_snapshot
  by_cases h : RequirementChangeDetector.get_requirements_hash hash doc = cache.file_hash
  · simp [h]
  · simp [h]

/-- Witness for C4 (amended) at a concrete input: against an empty prior
cache, detection persists the current document's snapshot. -/
theorem C4_witness_changed_branch_persists_current_snapshot :
    (RequirementChangeDetector.detect_changes (fun s => s) sampleFindallMd ["P"]
      (some "D") ⟨none, [], "t0"⟩ [] "t1").2 =
    RequirementChangeDetector.current_snapshot (fun s => s) sampleFindallMd ["P"]
      (some "D") "t1" :=
  (C4_amended_snapshot_persisted_only_on_change (fun s => s) sampleFindallMd ["P"]
    (some "D") ⟨none, [], "t0"⟩ [] "t1").1 (by decide)

/-- C5 (counterexample): a missing requirements document does not always yield
`document_changed = false` with empty sets.  With a hash snapshot left by an
earlier run over a document that has since been deleted, `detect_changes`
reports the document as changed and lists every previously-known requirement
as removed. -/
theorem C5_counterexample_missing_doc_with_prior_hash_reports_change :
    (RequirementChangeDetector.detect_changes (fun s => s) sampleFindallMd ["P"]
        none ⟨some "h", [("FR-1", "x")], "t0"⟩ [] "t1").1.file_changed = true ∧
    (RequirementChangeDetector.detect_changes (fun s => s) sampleFindallMd ["P"]
        none ⟨some "h", [("FR-1", "x")], "t0"⟩ [] "t1").1.removed_requirements =
      ["FR-1"] := by
  constructor
  · decide
  · decide

/-- C5 (amended): when the requirements document is missing *and* no document
hash was previously persisted, `detect_changes` yields `document_changed =
false` with `added`, `modified`, `removed` and `affected_tests` all empty, and
leaves the persisted state untouched — a normal state, not an error. -/
theorem C5_amended_missing_doc_without_prior_hash_no_change
    (hash : String → String)
    (findallMd : String → String → List (String × String)) (patterns : List String)
    (cache : HashCache) (req_to_tests : List (String × List String)) (now : String)
    (h : cache.file_hash = none) :
    (RequirementChangeDetector.detect_changes hash findallMd patterns none cache
        req_to_tests now).1 = ⟨false, [], [], [], []⟩ ∧
    (RequirementChangeDetector.detect_changes hash findallMd patterns none cache
        req_to_tests now).2 = cache := by
  simp [RequirementChangeDetector.detect_changes,
    RequirementChangeDetector.get_requirements_hash, h]

/-- Witness for C5 (amended) at a concrete input: missing document, no prior
hash. -/
theorem C5_witness_missing_doc_fresh_cache :
    (RequirementChangeDetector.detect_changes (fun s => s) sampleFindallMd ["P"]
        none ⟨none, [], "t0"⟩ [] "t1").1 = ⟨false, [], [], [], []⟩ ∧
    (RequirementChangeDetector.detect_changes (fun s => s) sampleFindallMd ["P"]
        none ⟨none, [], "t0"⟩ [] "t1").2 = ⟨none, [], "t0"⟩ :=
  C5_amended_missing_doc_without_prior_hash_no_change (fun s => s) sampleFindallMd
    ["P"] ⟨none, [], "t0"⟩ [] "t1" rfl

/-- C6 (counterexample): merge order is not irrelevant for a test identity's
requirement set.  Two self-contained fragments that record the same identity
with different requirement sets merge to different sets depending on order
(`dict.update` is last-write-wins for the whole requirement set, not only for
outcomes), refuting the claim that only outcome resolution is
order-dependent. -/
theorem C6_counterexample_requirement_set_depends_on_merge_order :
    dictGet "t" (aggregate_requirements_data
      [⟨[("t", ["R1"])], [], [("t", "passed")]⟩,
       ⟨[("t", ["R2"])], [], [("t", "failed")]⟩]).test_requirements = some ["R2"] ∧
    dictGet "t" (aggregate_requirements_data
      [⟨[("t", ["R2"])], [], [("t", "failed")]⟩,
       ⟨[("t", ["R1"])], [], [("t", "passed")]⟩]).test_requirements = some ["R1"] := by
  constructor
  · decide
  · decide

/-- C6 (amended): merging worker fragments is order-insensitive with respect
to the *set of test identities* in the merged `test_records`: permuting the
fragment sequence leaves identity membership unchanged.  Both conflicting
requirement sets and conflicting outcomes for the same identity resolve
last-write-wins and may depend on merge order. -/
theorem C6_amended_merge_identity_membership_perm_invariant
    (l l' : List Fragment) (hperm : l.Perm l') (k : String) :
    ((dictGet k (aggregate_requirements_data l).test_requirements).isSome ↔
     (dictGet k (aggregate_requirements_data l').test_requirements).isSome) := by
  rw [dictGet_isSome_iff_mem_keys, dictGet_isSome_iff_mem_keys]
  unfold aggregate_requirements_data
  rw [mem_keys_aggregate, mem_keys_aggregate]
  simp only [keys, List.map_nil, List.not_mem_nil, false_or]
  constructor
  · rintro ⟨f, hf, hk⟩
    exact ⟨f, hperm.mem_iff.mp hf, hk⟩
  · rintro ⟨f, hf, hk⟩
    exact ⟨f, hperm.mem_iff.mpr hf, hk⟩

/-- Witness for C6 (amended) at a concrete input: swapping two fragments does
not change whether identity `t` appears in the merged view. -/
theorem C6_witness_swap_preserves_identity_membership :
    (dictGet "t" (aggregate_requirements_data
      [⟨[("t", ["R1"])], [], []⟩, ⟨[("u", ["R2"])], [], []⟩]).test_requirements).isSome ↔
    (dictGet "t" (aggregate_requirements_data
      [⟨[("u", ["R2"])], [], []⟩, ⟨[("t", ["R1"])], [], []⟩]).test_requirements).isSome :=
  C6_amended_merge_identity_membership_perm_invariant
    [⟨[("t", ["R1"])], [], []⟩, ⟨[("u", ["R2"])], [], []⟩]
    [⟨[("u", ["R2"])], [], []⟩, ⟨[("t", ["R1"])], [], []⟩]
    (List.Perm.swap _ _ _) "t"

/-- C7: only a `call`-phase outcome is recorded (overwriting any prior outcome
for that test), except that a `skipped` outcome reported during `setup` is also
recorded; `teardown` outcomes and non-skipped `setup` outcomes never change the
recorded result, other tests' results are untouched, and no other collector
field changes. -/
theorem C7_makereport_records_call_and_setup_skipped_only
    (c : RequirementsCollector) (nodeid phase outcome : String) :
    (dictGet nodeid (pytest_runtest_makereport c nodeid phase outcome).test_results =
      (if phase = "call" then some outcome
       else if phase = "setup" ∧ outcome = "skipped" then some "skipped"
       else dictGet nodeid c.test_results)) ∧
    (∀ k, k ≠ nodeid →
      dictGet k (pytest_runtest_makereport c nodeid phase outcome).test_results =
        dictGet k c.test_results) ∧
    (pytest_runtest_makereport c nodeid phase outcome).test_requirements =
      c.test_requirements ∧
    (pytest_runtest_makereport c nodeid phase outcome).requirement_tests =
      c.requirement_tests := by
  unfold pytest_runtest_makereport
  by_cases h1 : phase = "call"
  · rw [if_pos h1]
    refine ⟨?_, ?_, rfl, rfl⟩
    · rw [if_pos h1]
      exact dictGet_dictSet_self nodeid outcome c.test_results
    · intro k hk
      exact dictGet_dictSet_ne _ _ hk
  · rw [if_neg h1]
    by_cases h2 : phase = "setup" ∧ outcome = "skipped"
    · rw [if_pos h2]
      refine ⟨?_, ?_, rfl, rfl⟩
      · rw [if_neg h1, if_pos h2]
        exact dictGet_dictSet_self nodeid "skipped" c.test_results
      · intro k hk
        exact dictGet_dictSet_ne _ _ hk
    · rw [if_neg h2]
      refine ⟨?_, fun k _ => rfl, rfl, rfl⟩
      rw [if_neg h1, if_neg h2]

/-- Witness for C7 at a concrete input: a `call`-phase report for `t1` leaves
`t2`'s recorded result unchanged. -/
theorem C7_witness_other_test_unchanged :
    dictGet "t2" (pytest_runtest_makereport ⟨[], [], [], none⟩ "t1" "call"
      "passed").test_results =
    dictGet "t2" (RequirementsCollector.mk [] [] [] none).test_results :=
  (C7_makereport_records_call_and_setup_skipped_only ⟨[], [], [], none⟩ "t1" "call"
    "passed").2.1 "t2" (by decide)

/-- C8: when `collect_test_requirements` raises the validation error, the
collector's `test_requirements`, `requirement_tests` and `test_results`
mappings are exactly what they were before the call (the validation happens
before any mutation of the coverage model). -/
theorem C8_collect_error_leaves_coverage_model_unchanged
    (findall findallDoc : String → String → List String) (patterns : List String)
    (file : FileRead) (c : RequirementsCollector) (item : Item)
    (e : RequirementsParser.ValidationError)
    (h : (RequirementsCollector.collect_test_requirements findall findallDoc patterns
      file c item).2 = some e) :
    (RequirementsCollector.collect_test_requirements findall findallDoc patterns
      file c item).1.test_requirements = c.test_requirements ∧
    (RequirementsCollector.collect_test_requirements findall findallDoc patterns
      file c item).1.requirement_tests = c.requirement_tests ∧
    (RequirementsCollector.collect_test_requirements findall findallDoc patterns
      file c item).1.test_results = c.test_results := by
  unfold RequirementsCollector.collect_test_requirements at h ⊢
  by_cases hd : item.doc = ""
  · rw [if_pos hd] at h
    simp at h
  · rw [if_neg hd] at h ⊢
    by_cases hr : RequirementsParser.extract_requirements findall patterns item.doc = []
    · rw [if_pos hr] at h
      simp at h
    · rw [if_neg hr] at h ⊢
      cases hv : (RequirementsParser.validate_requirements findallDoc patterns file
          (RequirementsParser.extract_requirements findall patterns item.doc)
          item.nodeid c.parser).1 with
      | none =>
          simp only [hv] at h
          simp at h
      | some e' =>
          simp [hv]

/-- C3 (counterexample): the collector does not suppress duplicates in
`requirement_tests`.  Collecting the same item twice — exactly what happens
when a test is collected (`pytest_collection_modifyitems`) and then set up
(`pytest_runtest_setup`) — lists the citing test twice under its requirement,
refuting the claimed duplicate suppression for collector-built snapshots. -/
theorem C3_counterexample_duplicate_in_collector :
    dictGet "FR-1"
      ((RequirementsCollector.collect_test_requirements sampleFindall sampleFindall ["P"]
        FileRead.missing
        ((RequirementsCollector.collect_test_requirements sampleFindall sampleFindall ["P"]
          FileRead.missing sampleCollector sampleItem).1) sampleItem).1).requirement_tests
      = some ["t1", "t1"] ∧
    ¬ (["t1", "t1"] : List String).Nodup := by
  constructor
  · decide
  · decide

/-- C3 (amended): in every coverage snapshot the collector builds over one
run, (i) the coverage invariant is preserved by every collection call: every
test identity in a `requirement_tests` value is a key of `test_requirements`
and every requirement referenced by a `test_requirements` entry is a key of
`requirement_tests`; (ii, iii) citing tests are recorded in insertion order:
a successful collection appends the citing test at the end of each extracted
requirement's list and leaves every other requirement's list unchanged.
Duplicates are suppressed only in the merged multi-worker view: there (iv)
every requirement's merged test list is duplicate-free, (v) merging further
fragments only extends each requirement's list at the end (insertion order),
and (vi) for self-contained fragments the merged view satisfies the same
containment invariants. -/
theorem C3_amended_coverage_snapshot_invariants :
    (∀ (findall findallDoc : String → String → List String) (patterns : List String)
        (file : FileRead) (c : RequirementsCollector) (item : Item),
        RequirementsCollector.coverage_invariant c →
        RequirementsCollector.coverage_invariant
          (RequirementsCollector.collect_test_requirements findall findallDoc patterns
            file c item).1) ∧
    (∀ (findall findallDoc : String → String → List String) (patterns : List String)
        (file : FileRead) (c : RequirementsCollector) (item : Item) (r : String),
        (RequirementsCollector.collect_test_requirements findall findallDoc patterns
          file c item).2 = none →
        r ∈ RequirementsParser.extract_requirements findall patterns item.doc →
        dictGet r (RequirementsCollector.collect_test_requirements findall findallDoc
            patterns file c item).1.requirement_tests =
          some ((dictGet r c.requirement_tests).getD [] ++ [item.nodeid])) ∧
    (∀ (findall findallDoc : String → String → List String) (patterns : List String)
        (file : FileRead) (c : RequirementsCollector) (item : Item) (r : String),
        r ∉ RequirementsParser.extract_requirements findall patterns item.doc →
        dictGet r (RequirementsCollector.collect_test_requirements findall findallDoc
            patterns file c item).1.requirement_tests =
          dictGet r c.requirement_tests) ∧
    (∀ (frags : List Fragment) (q : String × List String),
        q ∈ (aggregate_requirements_data frags).requirement_tests → q.2.Nodup) ∧
    (∀ (frags1 frags2 : List Fragment) (req : String),
        List.IsPrefix
          ((dictGet req (aggregate_requirements_data frags1).requirement_tests).getD [])
          ((dictGet req (aggregate_requirements_data
            (frags1 ++ frags2)).requirement_tests).getD [])) ∧
    (∀ frags : List Fragment, (∀ f ∈ frags, f.self_contained) →
        (∀ q ∈ (aggregate_requirements_data frags).requirement_tests, ∀ t ∈ q.2,
           t ∈ keys (aggregate_requirements_data frags).test_requirements) ∧
        (∀ p ∈ (aggregate_requirements_data frags).test_requirements, ∀ r ∈ p.2,
           r ∈ keys (aggregate_requirements_data frags).requirement_tests)) := by
  refine ⟨?_, ?_, ?_, ?_, ?_, ?_⟩
  · intro findall findallDoc patterns file c item h
    unfold RequirementsCollector.collect_test_requirements
    by_cases hd : item.doc = ""
    · rw [if_pos hd]
      exact h
    · rw [if_neg hd]
      by_cases hr : RequirementsParser.extract_requirements findall patterns item.doc = []
      · rw [if_pos hr]
        exact h
      · rw [if_neg hr]
        cases hv : (RequirementsParser.validate_requirements findallDoc patterns file
            (RequirementsParser.extract_requirements findall patterns item.doc)
            item.nodeid c.parser).1 with
        | some e =>
            simp only [hv]
            exact h
        | none =>
            simp only [hv]
            constructor
            · intro p hp x hx
              refine append_tests_values
                (fun y => y ∈ keys (dictSet item.nodeid
                  (RequirementsParser.extract_requirements findall patterns item.doc)
                  c.test_requirements))
                ?_ _ c.requirement_tests ?_ p hp x hx
              · exact (mem_keys_dictSet _ _ _ _).mpr (Or.inl rfl)
              · intro q hq y hy
                exact (mem_keys_dictSet _ _ _ _).mpr (Or.inr (h.1 q hq y hy))
            · intro p hp r hrp
              rcases mem_dictSet_elim item.nodeid
                  (RequirementsParser.extract_requirements findall patterns item.doc)
                  c.test_requirements p hp with rfl | hp'
              · exact (mem_keys_append_tests _ _ _ _).mpr (Or.inl hrp)
              · exact (mem_keys_append_tests _ _ _ _).mpr (Or.inr (h.2 p hp' r hrp))
  · intro findall findallDoc patterns file c item r herr hr
    unfold RequirementsCollector.collect_test_requirements at herr ⊢
    by_cases hd : item.doc = ""
    · rw [RequirementsParser.extract_requirements, if_pos hd] at hr
      simp at hr
    · rw [if_neg hd] at herr ⊢
      have hne : RequirementsParser.extract_requirements findall patterns item.doc ≠ [] :=
        List.ne_nil_of_mem hr
      rw [if_neg hne] at herr ⊢
      cases hv : (RequirementsParser.validate_requirements findallDoc patterns file
          (RequirementsParser.extract_requirements findall patterns item.doc)
          item.nodeid c.parser).1 with
      | some e =>
          simp only [hv] at herr
          simp at herr
      | none =>
          simp only [hv]
          exact append_tests_get_mem item.nodeid r
            (RequirementsParser.extract_requirements findall patterns item.doc)
            c.requirement_tests
            (extract_requirements_nodup findall patterns item.doc) hr
  · intro findall findallDoc patterns file c item r hr
    unfold RequirementsCollector.collect_test_requirements
    by_cases hd : item.doc = ""
    · rw [if_pos hd]
    · rw [if_neg hd]
      by_cases hne : RequirementsParser.extract_requirements findall patterns item.doc = []
      · rw [if_pos hne]
      · rw [if_neg hne]
        cases hv : (RequirementsParser.validate_requirements findallDoc patterns file
            (RequirementsParser.extract_requirements findall patterns item.doc)
            item.nodeid c.parser).1 with
        | some e => simp only [hv]
        | none =>
            simp only [hv]
            exact append_tests_get_not_mem item.nodeid r
              (RequirementsParser.extract_requirements findall patterns item.doc)
              c.requirement_tests hr
  · intro frags q hq
    exact aggregate_nodup frags ⟨[], [], []⟩ (by simp) q hq
  · intro frags1 frags2 req
    unfold aggregate_requirements_data
    rw [List.foldl_append]
    exact aggregate_extends frags2 (frags1.foldl aggregate_step ⟨[], [], []⟩) req
  · intro frags hsc
    exact aggregate_containment frags ⟨[], [], []⟩ hsc (by simp) (by simp)

/-- Witness for C3 (amended) at concrete inputs: collecting a valid item into
the empty collector preserves the invariant and appends the citing test at the
end of its requirement's list, and merging one concrete self-contained
fragment yields a view satisfying the containment invariants. -/
theorem C3_witness_coverage_snapshot_invariants :
    RequirementsCollector.coverage_invariant
      ((RequirementsCollector.collect_test_requirements sampleFindall sampleFindall ["P"]
        FileRead.missing sampleCollector sampleItem).1) ∧
    dictGet "FR-1" ((RequirementsCollector.collect_test_requirements sampleFindall
        sampleFindall ["P"] FileRead.missing sampleCollector sampleItem).1).requirement_tests =
      some ((dictGet "FR-1" sampleCollector.requirement_tests).getD [] ++
        [sampleItem.nodeid]) ∧
    (∀ q ∈ (aggregate_requirements_data [sampleFragment]).requirement_tests, ∀ t ∈ q.2,
       t ∈ keys (aggregate_requirements_data [sampleFragment]).test_requirements) :=
  ⟨C3_amended_coverage_snapshot_invariants.1 sampleFindall sampleFindall ["P"]
      FileRead.missing sampleCollector sampleItem
      (by refine ⟨?_, ?_⟩ <;> intro p hp <;> simp [sampleCollector] at hp),
   C3_amended_coverage_snapshot_invariants.2.1 sampleFindall sampleFindall ["P"]
      FileRead.missing sampleCollector sampleItem "FR-1" (by decide) (by decide),
   (C3_amended_coverage_snapshot_invariants.2.2.2.2.2 [sampleFragment]
      (by
        intro f hf
        rw [List.mem_singleton] at hf
        subst hf
        refine ⟨?_, ?_⟩
        · intro p hp r hr
          simp only [sampleFragment, List.mem_singleton] at hp
          subst hp
          simp only [List.mem_singleton] at hr
          subst hr
          exact ⟨["t1"], by decide, by decide⟩
        · intro q hq t htq
          simp only [sampleFragment, List.mem_singleton] at hq
          subst hq
          simp only [List.mem_singleton] at htq
          subst htq
          decide)).1⟩

/-- Witness for C8 at a concrete input: collecting `t1` (citing `FR-1`) against
the memoized valid set `{FR-2}` raises, and the coverage model is unchanged. -/
theorem C8_witness_failed_collect_state_unchanged :
    (RequirementsCollector.collect_test_requirements sampleFindall sampleFindall ["P"]
      FileRead.missing sampleCollectorOther sampleItem).1.test_requirements =
      sampleCollectorOther.test_requirements ∧
    (RequirementsCollector.collect_test_requirements sampleFindall sampleFindall ["P"]
      FileRead.missing sampleCollectorOther sampleItem).1.requirement_tests =
      sampleCollectorOther.requirement_tests ∧
    (RequirementsCollector.collect_test_requirements sampleFindall sampleFindall ["P"]
      FileRead.missing sampleCollectorOther sampleItem).1.test_results =
      sampleCollectorOther.test_results :=
  C8_collect_error_leaves_coverage_model_unchanged sampleFindall sampleFindall ["P"]
    FileRead.missing sampleCollectorOther sampleItem ⟨"t1", ["FR-1"]⟩ (by decide)

end Pytreqt
